import Mathlib

namespace Netdev

/-!
Shallow embedding of `DeviceStream` from `netdev/core/device_stream.py`,
together with theorems settling the specification's claims about it.

Modelling conventions:
* Python strings are Lean `String` (a structure around `List Char`).
* The Python `re` module is external to the repository.  Pattern matching in
  `read_until` is therefore modelled by an arbitrary search oracle passed as a
  parameter (a function from pattern, text and flags to `Bool`), while the
  fragment of `re` actually exercised by the compiled bootstrap pattern
  (alternations of escaped literals) is given an explicit syntax and matching
  semantics further below, for the escaping-correctness claim.
* Transport reads are modelled by the list of chunks the connection will
  yield; running out of chunks models a `read()` that blocks forever.
* Exceptions are modelled by an `err` outcome carrying the message, and every
  outcome carries the trace of transport writes/reads and pattern assignments
  performed before it was produced.
-/

/-- Cons a prefix onto the first block of a block list (helper used to model
Python string splitting; splitting never yields an empty block list). -/
def consPre (pre : List Char) : List (List Char) → List (List Char)
  | [] => [pre]
  | b :: bs => (pre ++ b) :: bs

/-- Python `output.split` at every newline character. -/
def splitNL : List Char → List (List Char)
  | [] => [[]]
  | c :: rest => if c = '\n' then [] :: splitNL rest else consPre [c] (splitNL rest)

/-- Python `join` with a newline separator. -/
def joinNL : List (List Char) → List Char
  | [] => []
  | [b] => b
  | b :: bs => b ++ '\n' :: joinNL bs

/-- Embeds `DeviceStream._normalize_cmd`: strip every trailing newline, then append
exactly one. -/
def normalize_cmd (cmd : String) : String :=
  ⟨(cmd.data.reverse.dropWhile (fun c => c = '\n')).reverse ++ ['\n']⟩

/-- Embeds `DeviceStream._strip_prompt`: split on newlines, drop the last line,
rejoin. -/
def strip_prompt (output : String) : String :=
  ⟨joinNL ((splitNL output.data).dropLast)⟩

/-- Embeds `DeviceStream._strip_command`: if a backspace occurs anywhere, delete all
backspaces and drop the first line; otherwise drop `len(cmd)` leading
characters.  Note `send_commands` passes the command *as given by the
caller*, not its newline-normalized form. -/
def strip_command (cmd output : String) : String :=
  if '\x08' ∈ output.data then
    ⟨joinNL ((splitNL (output.data.filter (fun c => c ≠ '\x08'))).drop 1)⟩
  else
    ⟨output.data.drop cmd.data.length⟩

/-- Embeds `DeviceStream._normalize_linefeeds`: the left-to-right, non-overlapping
scan performed by `re.sub` with the alternation CR CR LF, CR LF, LF CR and
replacement LF (branches tried in that order at each position). -/
def nlAux : List Char → List Char
  | [] => []
  | [c] => [c]
  | [c1, c2] =>
    if (c1 = '\r' ∧ c2 = '\n') ∨ (c1 = '\n' ∧ c2 = '\r') then ['\n']
    else c1 :: nlAux [c2]
  | c1 :: c2 :: c3 :: rest =>
    if c1 = '\r' ∧ c2 = '\r' ∧ c3 = '\n' then '\n' :: nlAux rest
    else if c1 = '\r' ∧ c2 = '\n' then '\n' :: nlAux (c3 :: rest)
    else if c1 = '\n' ∧ c2 = '\r' then '\n' :: nlAux (c3 :: rest)
    else c1 :: nlAux (c2 :: c3 :: rest)

/-- The linefeed normalization on strings. -/
def normalize_linefeeds (s : String) : String := ⟨nlAux s.data⟩

/-! ### Session state, transport model and command dispatch -/

/-- Transport and pattern-assignment events, in program order. -/
inductive Ev
  | write (s : String)
  | read (s : String)
  | setPattern (p : String)
deriving DecidableEq

/-- Result of running a stage: a value, a raised exception with its message,
or blocking forever on `read`; each case carries the trace of events emitted
before the outcome was reached. -/
inductive Outcome (α : Type)
  | ok (a : α) (evs : List Ev)
  | err (msg : String) (evs : List Ev)
  | hang (evs : List Ev)
deriving DecidableEq

/-- The trace of an outcome. -/
def evsOf {α : Type} : Outcome α → List Ev
  | .ok _ evs => evs
  | .err _ evs => evs
  | .hang evs => evs

/-- The pattern assignments recorded in a trace. -/
def setPats (evs : List Ev) : List String :=
  evs.filterMap (fun e =>
    match e with
    | Ev.setPattern p => some p
    | _ => none)

/-- The `patterns` argument of `send_commands` as a dynamically typed Python
value: `None`, a string, a list of strings, or any other object (of which
the code only ever inspects the truthiness). -/
inductive PyPatterns
  | pynone
  | str (s : String)
  | list (l : List String)
  | other (truthy : Bool)
deriving DecidableEq

/-- Python truthiness test `not patterns`. -/
def pyFalsy : PyPatterns → Bool
  | .pynone => true
  | .str s => s == ""
  | .list l => l == []
  | .other t => !t

/-- Lines 86–93 of `send_commands`: build the effective terminator-pattern
list or raise `ValueError`.  Mirrors the source exactly: the falsy test runs
first, then the two isinstance branches, then the raise. -/
def pattern_list (prompt : String) (patterns : PyPatterns) : Except String (List String) :=
  if pyFalsy patterns then Except.ok [prompt]
  else
    match patterns with
    | .str s => Except.ok [s, prompt]
    | .list l => Except.ok (l ++ [prompt])
    | _ => Except.error "Patterns can be set only to str or List[str]"

/-- The `cmd_list` argument of `send_commands`: a string, a list of strings,
or `None` (which `_session_preparation` passes when no pagination-disable
command is configured). -/
inductive PyCmds
  | str (s : String)
  | list (l : List String)
  | pynone
deriving DecidableEq

/-- Embeds `DeviceStream._read_until`: append each chunk to the accumulating buffer
and test every pattern after each chunk; on first match normalize linefeeds
and return the buffer together with the chunks not yet consumed.  The first
component collects the read events; `none` in the second means the chunk
supply ran out, i.e. the next `read()` blocks forever. -/
def read_until (search : String → String → Nat → Bool) (pats : List String)
    (flags : Nat) (acc : String) : List String → List Ev × Option (String × List String)
  | [] => ([], none)
  | ch :: rest =>
    let acc' := acc ++ ch
    if pats.any (fun p => search p acc' flags) then
      ([Ev.read ch], some (normalize_linefeeds acc', rest))
    else
      let r := read_until search pats flags acc' rest
      (Ev.read ch :: r.1, r.2)

/-- Result of the per-command loop of `send_commands`: the loop body cannot
raise, it either completes or blocks on a read. -/
inductive RunRes
  | ok (out : String) (rest : List String) (evs : List Ev)
  | hang (evs : List Ev)
deriving DecidableEq

/-- The per-command loop of `send_commands` (lines 100–108): write the
normalized command, read until a pattern matches, apply the two sanitizer
steps as enabled, and accumulate the cleaned output. -/
def run_cmds (search : String → String → Nat → Bool) (pats : List String)
    (flags : Nat) (sc sp : Bool) : List String → List String → RunRes
  | [], chunks => .ok "" chunks []
  | cmd :: rest, chunks =>
    match (read_until search pats flags "" chunks).2 with
    | none => .hang (Ev.write (normalize_cmd cmd) :: (read_until search pats flags "" chunks).1)
    | some (buf, chunks') =>
      let buf1 := if sc then strip_command cmd buf else buf
      let buf2 := if sp then strip_prompt buf1 else buf1
      match run_cmds search pats flags sc sp rest chunks' with
      | .ok out rest' evs =>
        .ok (buf2 ++ out) rest' (Ev.write (normalize_cmd cmd) ::
          (read_until search pats flags "" chunks).1 ++ evs)
      | .hang evs =>
        .hang (Ev.write (normalize_cmd cmd) ::
          (read_until search pats flags "" chunks).1 ++ evs)

/-- Lift the loop result into an outcome. -/
def ofRun : RunRes → Outcome (String × List String)
  | .ok out rest evs => .ok (out, rest) evs
  | .hang evs => .hang evs

/-- Embeds `DeviceStream.send_commands`.  The prompt pattern is passed explicitly
(it is the only piece of session state the method reads); `sc` and `sp` are
the `strip_command` and `strip_prompt` flags. -/
def send_commands (search : String → String → Nat → Bool) (prompt : String)
    (cmds : PyCmds) (sc sp : Bool) (patterns : PyPatterns) (flags : Nat)
    (chunks : List String) : Outcome (String × List String) :=
  match pattern_list prompt patterns with
  | .error m => .err m []
  | .ok pats =>
    match cmds with
    | .str s => ofRun (run_cmds search pats flags sc sp [s] chunks)
    | .list l => ofRun (run_cmds search pats flags sc sp l chunks)
    | .pynone => .err "TypeError: NoneType object is not iterable" []

/-- The two-line anchored bootstrap variant built in `_find_prompt`. -/
def anchored (p : String) : String := "(" ++ p ++ ").*$.*(" ++ p ++ ")$"

/-- The flag value `re.MULTILINE ||| re.DOTALL`. -/
def reMultilineDotall : Nat := 24

/-- Embeds `DeviceStream._find_prompt`: install the anchored variant of the current
pattern, probe with a bare newline with both strip flags off, then install
the prompt-setter's result.  Returns the raw probe output, the new pattern
and the remaining chunks. -/
def find_prompt (search : String → String → Nat → Bool) (spf : String → String)
    (p : String) (chunks : List String) : Outcome (String × String × List String) :=
  match send_commands search (anchored p) (.str "\n") false false .pynone reMultilineDotall chunks with
  | .ok (raw, rest) evs =>
    .ok (raw, spf raw, rest) (Ev.setPattern (anchored p) :: evs ++ [Ev.setPattern (spf raw)])
  | .err m evs => .err m (Ev.setPattern (anchored p) :: evs)
  | .hang evs => .hang (Ev.setPattern (anchored p) :: evs)

/-- Embeds `DeviceStream._session_preparation`: dispatch `self._nopage_cmd` through
`send_commands` with all defaults.  The source has no guard: `None` is
passed through as the command list. -/
def session_preparation (search : String → String → Nat → Bool) (p : String)
    (nopage : Option String) (chunks : List String) : Outcome (String × List String) :=
  send_commands search p
    (match nopage with
     | some c => PyCmds.str c
     | none => PyCmds.pynone)
    true true .pynone 0 chunks

/-- Python `re.escape` special set (every character that can have special
meaning in a pattern, per the `re` module). -/
def pySpecial (c : Char) : Bool :=
  c == '(' || c == ')' || c == '[' || c == ']' || c == '\x7b' || c == '\x7d' ||
  c == '?' || c == '*' || c == '+' || c == '-' || c == '|' || c == '^' ||
  c == '$' || c == '\\' || c == '.' || c == '&' || c == '~' || c == '#' ||
  c == ' ' || c == '\t' || c == '\n' || c == '\r' || c == '\x0b' || c == '\x0c'

/-- Python `re.escape` on a character list. -/
def escapeList : List Char → List Char
  | [] => []
  | c :: rest => if pySpecial c then '\\' :: c :: escapeList rest else c :: escapeList rest

/-- Python `re.escape`. -/
def escape (s : String) : String := ⟨escapeList s.data⟩

/-- Join with alternation bars, as in the `__init__` line
`self._prompt_pattern = "|".join(map(re.escape, delimeter_list))`. -/
def joinBar : List (List Char) → List Char
  | [] => []
  | [b] => b
  | b :: bs => b ++ '|' :: joinBar bs

/-- The bootstrap pattern compiled at construction. -/
def bootstrap_pattern (delims : List String) : String :=
  ⟨joinBar (delims.map (fun d => escapeList d.data))⟩

/-- Session state: the mutable prompt pattern, the optional pagination
command, and the transport modelled by its pending chunks. -/
structure DSState where
  promptPattern : String
  nopageCmd : Option String
  chunks : List String
deriving DecidableEq

/-- Embeds `DeviceStream.__init__` (the transport and prompt-setter null checks are
outside this model, as both collaborators are supplied as Lean values).
Note the source has no guard on the delimiter list: the empty list yields
the empty pattern. -/
def mkInit (delims : List String) (nopage : Option String) (chunks : List String) : DSState :=
  ⟨bootstrap_pattern delims, nopage, chunks⟩

/-- Embeds `DeviceStream.connect`: find the prompt, then run session preparation
with the learned pattern, returning the concatenated output.  (The
underlying transport `connect()` is an external effect with no data flow.) -/
def connect (search : String → String → Nat → Bool) (spf : String → String)
    (st : DSState) : Outcome (String × DSState) :=
  match find_prompt search spf st.promptPattern st.chunks with
  | .ok (raw, p2, rest) evs =>
    (match session_preparation search p2 st.nopageCmd rest with
     | .ok (buf, rest2) evs2 => .ok (raw ++ buf, ⟨p2, st.nopageCmd, rest2⟩) (evs ++ evs2)
     | .err m evs2 => .err m (evs ++ evs2)
     | .hang evs2 => .hang (evs ++ evs2))
  | .err m evs => .err m evs
  | .hang evs => .hang evs

/-- A concrete search oracle for closed runs: plain substring search, which
agrees with `re.search` on metacharacter-free patterns. -/
def litSearch (p s : String) (_fl : Nat) : Bool := decide (p.data <:+: s.data)

/-! ### Trace lemmas -/

/-- The trace of a loop result. -/
def evsOfRun : RunRes → List Ev
  | .ok _ _ evs => evs
  | .hang evs => evs

/-! ### Claim C9: strictly sequential dispatch -/

/-- One command's slice of the trace: exactly one transport write of the
newline-normalized command, followed only by transport reads (the last of
which is the chunk on which a terminator pattern first matched). -/
def cmdBlock (c : String) (b : List Ev) : Prop :=
  ∃ rs : List String, b = Ev.write (normalize_cmd c) :: rs.map Ev.read

/-! ### A regex fragment with Python-style syntax, for claim C7

The compiled bootstrap pattern is an alternation of escaped literals.  To
check escaping correctness without assuming it, the parser below follows
Python `re` syntax generally: `|` splits alternatives (except when escaped),
a backslash before a non-alphanumeric character denotes that literal
character, `.` is the any-character atom, postfix `*`, `+`, `?` repeat the
preceding atom, and the remaining metacharacters (groups, classes, anchors)
make parsing fail — so a pattern built with broken escaping would either
fail to parse or parse to a non-literal regex, falsifying the theorem. -/

/-- Syntax of the fragment. -/
inductive Rx
  | eps
  | chr (c : Char)
  | dot
  | alt (a b : Rx)
  | cat (a b : Rx)
  | star (a : Rx)
  | plus (a : Rx)
  | opt (a : Rx)

/-- Standard matching semantics. -/
inductive RxMatch : Rx → List Char → Prop
  | eps : RxMatch .eps []
  | chr (c : Char) : RxMatch (.chr c) [c]
  | dot (c : Char) : RxMatch .dot [c]
  | altL {a b : Rx} {s : List Char} : RxMatch a s → RxMatch (.alt a b) s
  | altR {a b : Rx} {s : List Char} : RxMatch b s → RxMatch (.alt a b) s
  | cat {a b : Rx} {s t : List Char} :
      RxMatch a s → RxMatch b t → RxMatch (.cat a b) (s ++ t)
  | starNil (a : Rx) : RxMatch (.star a) []
  | starCons {a : Rx} {s t : List Char} :
      RxMatch a s → RxMatch (.star a) t → RxMatch (.star a) (s ++ t)
  | plus {a : Rx} {s t : List Char} :
      RxMatch a s → RxMatch (.star a) t → RxMatch (.plus a) (s ++ t)
  | optNone (a : Rx) : RxMatch (.opt a) []
  | optSome {a : Rx} {s : List Char} : RxMatch a s → RxMatch (.opt a) s

/-- Search semantics of `re.search`: some infix of the text matches. -/
def rxSearch (r : Rx) (t : List Char) : Prop := ∃ m, m <:+: t ∧ RxMatch r m

/-- Tokens of one alternation branch. -/
inductive Tok
  | atom (r : Rx)
  | star
  | plus
  | opt

/-- Unescaped characters with special meaning not handled by the fragment:
their presence makes parsing fail. -/
def unsupportedChar (c : Char) : Bool :=
  c == '(' || c == ')' || c == '[' || c == ']' || c == '\x7b' || c == '\x7d' ||
  c == '^' || c == '$' || c == '|'

def tokenizeBranch : List Char → Option (List Tok)
  | [] => some []
  | c :: rest =>
    if c = '\\' then
      match rest with
      | [] => none
      | c2 :: rest2 =>
        if c2.isAlphanum then none
        else (tokenizeBranch rest2).map (fun ts => Tok.atom (Rx.chr c2) :: ts)
    else if c = '*' then (tokenizeBranch rest).map (fun ts => Tok.star :: ts)
    else if c = '+' then (tokenizeBranch rest).map (fun ts => Tok.plus :: ts)
    else if c = '?' then (tokenizeBranch rest).map (fun ts => Tok.opt :: ts)
    else if c = '.' then (tokenizeBranch rest).map (fun ts => Tok.atom Rx.dot :: ts)
    else if unsupportedChar c then none
    else (tokenizeBranch rest).map (fun ts => Tok.atom (Rx.chr c) :: ts)

/-- Fold a branch's tokens into a regex, attaching postfix repetitions to
the preceding atom; a repetition with no preceding atom is a syntax error. -/
def parseToks : List Tok → Option Rx
  | [] => some Rx.eps
  | Tok.atom a :: Tok.star :: ts => (parseToks ts).map (fun r => Rx.cat (Rx.star a) r)
  | Tok.atom a :: Tok.plus :: ts => (parseToks ts).map (fun r => Rx.cat (Rx.plus a) r)
  | Tok.atom a :: Tok.opt :: ts => (parseToks ts).map (fun r => Rx.cat (Rx.opt a) r)
  | Tok.atom a :: ts => (parseToks ts).map (fun r => Rx.cat a r)
  | Tok.star :: _ => none
  | Tok.plus :: _ => none
  | Tok.opt :: _ => none

def parseBranch (b : List Char) : Option Rx :=
  match tokenizeBranch b with
  | some ts => parseToks ts
  | none => none

/-- Split a pattern at every unescaped `|` (a backslash escapes the next
character; a trailing lone backslash is kept and later fails to parse). -/
def splitBranches : List Char → List (List Char)
  | [] => [[]]
  | c :: rest =>
    if c = '\\' then
      match rest with
      | [] => [['\\']]
      | c2 :: rest2 => consPre ['\\', c2] (splitBranches rest2)
    else if c = '|' then [] :: splitBranches rest
    else consPre [c] (splitBranches rest)

def parseBranches : List (List Char) → Option (List Rx)
  | [] => some []
  | b :: bs =>
    match parseBranch b, parseBranches bs with
    | some r, some rs => some (r :: rs)
    | _, _ => none

def altOf : List Rx → Option Rx
  | [] => none
  | [r] => some r
  | r :: rs => (altOf rs).map (fun a => Rx.alt r a)

/-- Parse a whole pattern: alternation of branches. -/
def parseRegex (s : String) : Option Rx :=
  match parseBranches (splitBranches s.data) with
  | some rs => altOf rs
  | none => none

/-- The regex matching exactly one literal string. -/
def litRx (d : List Char) : Rx := d.foldr (fun c r => Rx.cat (Rx.chr c) r) Rx.eps

/-! ### Basic lemmas about the sanitizer -/

lemma consPre_singleton (pre b : List Char) (bs : List (List Char)) :
    consPre pre (b :: bs) = (pre ++ b) :: bs := rfl

lemma splitNL_no_nl (l : List Char) (h : '\n' ∉ l) : splitNL l = [l] := by
  induction l with
  | nil => rfl
  | cons c rest ih =>
    have hc : c ≠ '\n' := fun hc => h (hc ▸ List.mem_cons_self c rest)
    have hrest : '\n' ∉ rest := fun hr => h (List.mem_cons_of_mem c hr)
    simp only [splitNL, if_neg hc, ih hrest, consPre]
    rfl

/-- Claim C10: output with no newline is stripped to the empty string by
`strip_prompt` — the whole single line is treated as the prompt line. -/
theorem strip_prompt_no_newline_empty (output : String) (h : '\n' ∉ output.data) :
    strip_prompt output = "" := by
  unfold strip_prompt
  rw [splitNL_no_nl output.data h]
  rfl

/-- Witness for `strip_prompt_no_newline_empty` at a concrete prompt-only
output. -/
theorem strip_prompt_no_newline_empty_witness :
    ('\n' ∉ ("Router>" : String).data) ∧ strip_prompt "Router>" = "" :=
  ⟨by decide, strip_prompt_no_newline_empty "Router>" (by decide)⟩

/-- Counterexample to claim C4 as stated: the command `"a"` normalizes to
`"a" ++ "\n"` of length 2, the output starts with exactly those bytes and has
no backspace, yet `strip_command` removes only one character (the length of
the command as passed), leaving the echoed newline. -/
theorem strip_command_normalized_length_cex :
    strip_command "a" "a\nhi" = "\nhi" ∧
    strip_command "a" "a\nhi" ≠ "hi" ∧
    ('\x08' ∉ ("a\nhi" : String).data) ∧
    (normalize_cmd "a").data <+: ("a\nhi" : String).data ∧
    (normalize_cmd "a").data.length = 2 := by
  refine ⟨rfl, by decide, by decide, ⟨"hi".data, by decide⟩, by decide⟩

/-- Claim C4, amended: for backspace-free output, `strip_command` drops
exactly `len(cmd)` leading characters where `cmd` is the command string as
passed (send_commands does not newline-normalize it first); when the passed
command already ends in exactly one newline — so that it coincides with its
normalized form — and the output starts with those normalized bytes, it
removes exactly those bytes and changes nothing else. -/
theorem strip_command_amended :
    (∀ cmd output : String, '\x08' ∉ output.data →
      (strip_command cmd output).data = output.data.drop cmd.data.length) ∧
    (∀ cmd output : String, '\x08' ∉ output.data → cmd = normalize_cmd cmd →
      (normalize_cmd cmd).data <+: output.data →
      output.data = (normalize_cmd cmd).data ++ (strip_command cmd output).data) := by
  constructor
  · intro cmd output h
    unfold strip_command
    rw [if_neg h]
  · intro cmd output h hnorm hpre
    obtain ⟨t, ht⟩ := hpre
    unfold strip_command
    rw [if_neg h, ← hnorm] at *
    have hdrop : output.data.drop cmd.data.length = t := by
      rw [← ht, List.drop_left]
    rw [hdrop, ht]

/-- Witness for `strip_command_amended` with an already-normalized command. -/
theorem strip_command_amended_witness :
    (('\x08' ∉ ("a\nxy" : String).data) ∧
      (strip_command "a" "a\nxy").data = ("a\nxy" : String).data.drop ("a" : String).data.length) ∧
    (("a\n" : String) = normalize_cmd "a\n") ∧
    ((normalize_cmd "a\n").data <+: ("a\nxy" : String).data) ∧
    ("a\nxy" : String).data = (normalize_cmd "a\n").data ++ (strip_command "a\n" "a\nxy").data :=
  ⟨⟨by decide, strip_command_amended.1 "a" "a\nxy" (by decide)⟩,
   by decide, ⟨"xy".data, by decide⟩,
   strip_command_amended.2 "a\n" "a\nxy" (by decide) (by decide) ⟨"xy".data, by decide⟩⟩

/-! ### Linefeed normalization (claim C5) -/

/-- Definitional unfolding of the scanner on two remaining characters. -/
lemma nlAux_cons2 (c1 c2 : Char) :
    nlAux [c1, c2] =
      if (c1 = '\r' ∧ c2 = '\n') ∨ (c1 = '\n' ∧ c2 = '\r') then ['\n']
      else c1 :: nlAux [c2] := rfl

/-- Definitional unfolding of the scanner on at least three characters. -/
lemma nlAux_cons3 (c1 c2 c3 : Char) (r : List Char) :
    nlAux (c1 :: c2 :: c3 :: r) =
      if c1 = '\r' ∧ c2 = '\r' ∧ c3 = '\n' then '\n' :: nlAux r
      else if c1 = '\r' ∧ c2 = '\n' then '\n' :: nlAux (c3 :: r)
      else if c1 = '\n' ∧ c2 = '\r' then '\n' :: nlAux (c3 :: r)
      else c1 :: nlAux (c2 :: c3 :: r) := rfl

/-- A character that can neither start nor continue one of the three
recognized line-ending variants passes through the scanner unchanged. -/
lemma nlAux_cons_safe (c : Char) (l : List Char) (h1 : c ≠ '\r') (h2 : c ≠ '\n') :
    nlAux (c :: l) = c :: nlAux l := by
  match l with
  | [] => rfl
  | [c2] =>
    have hA : ¬((c = '\r' ∧ c2 = '\n') ∨ (c = '\n' ∧ c2 = '\r')) := by
      rintro (⟨hc, -⟩ | ⟨hc, -⟩)
      · exact h1 hc
      · exact h2 hc
    rw [nlAux_cons2, if_neg hA]
  | c2 :: c3 :: r =>
    have hA : ¬(c = '\r' ∧ c2 = '\r' ∧ c3 = '\n') := by
      rintro ⟨hc, -⟩; exact h1 hc
    have hB : ¬(c = '\r' ∧ c2 = '\n') := by
      rintro ⟨hc, -⟩; exact h1 hc
    have hC : ¬(c = '\n' ∧ c2 = '\r') := by
      rintro ⟨hc, -⟩; exact h2 hc
    rw [nlAux_cons3, if_neg hA, if_neg hB, if_neg hC]

/-- A linefeed followed by anything but a carriage return also passes
through (it is emitted as itself). -/
lemma nlAux_cons_lf (l : List Char) (h : ∀ c', l.head? = some c' → c' ≠ '\r') :
    nlAux ('\n' :: l) = '\n' :: nlAux l := by
  match l with
  | [] => rfl
  | [c2] =>
    have hc2 : c2 ≠ '\r' := h c2 rfl
    have hA : ¬(('\n' = '\r' ∧ c2 = '\n') ∨ ('\n' = '\n' ∧ c2 = '\r')) := by
      rintro (⟨hc, -⟩ | ⟨-, hc⟩)
      · exact absurd hc (by decide)
      · exact hc2 hc
    rw [nlAux_cons2, if_neg hA]
  | c2 :: c3 :: r =>
    have hc2 : c2 ≠ '\r' := h c2 rfl
    have hA : ¬('\n' = '\r' ∧ c2 = '\r' ∧ c3 = '\n') := by
      rintro ⟨hc, -⟩; exact absurd hc (by decide)
    have hB : ¬('\n' = '\r' ∧ c2 = '\n') := by
      rintro ⟨hc, -⟩; exact absurd hc (by decide)
    have hC : ¬('\n' = '\n' ∧ c2 = '\r') := by
      rintro ⟨-, hc⟩; exact hc2 hc
    rw [nlAux_cons3, if_neg hA, if_neg hB, if_neg hC]

/-- On carriage-return-free text the scanner is the identity. -/
lemma nlAux_id_of_no_cr (l : List Char) (h : '\r' ∉ l) : nlAux l = l := by
  induction l with
  | nil => rfl
  | cons c rest ih =>
    have hc : c ≠ '\r' := fun hc => h (hc ▸ List.mem_cons_self c rest)
    have hrest : '\r' ∉ rest := fun hr => h (List.mem_cons_of_mem c hr)
    by_cases hn : c = '\n'
    · subst hn
      rw [nlAux_cons_lf rest, ih hrest]
      intro c' hc' hcr
      subst hcr
      exact hrest (by
        cases rest with
        | nil => cases hc'
        | cons x xs =>
          cases hc'
          exact List.mem_cons_self _ _)
    · rw [nlAux_cons_safe c rest hc hn, ih hrest]

/-- Each of the three variants at the head of the input is rewritten to a
single linefeed, and scanning resumes after it. -/
lemma nlAux_variant_head (v s : List Char)
    (hv : v = ['\r', '\r', '\n'] ∨ v = ['\r', '\n'] ∨ v = ['\n', '\r']) :
    nlAux (v ++ s) = '\n' :: nlAux s := by
  rcases hv with rfl | rfl | rfl
  · show nlAux ('\r' :: '\r' :: '\n' :: s) = '\n' :: nlAux s
    rw [nlAux_cons3, if_pos ⟨rfl, rfl, rfl⟩]
  · cases s with
    | nil => rfl
    | cons c3 r =>
      show nlAux ('\r' :: '\n' :: c3 :: r) = '\n' :: nlAux (c3 :: r)
      have hA : ¬('\r' = '\r' ∧ '\n' = '\r' ∧ c3 = '\n') := by
        rintro ⟨-, hc, -⟩; exact absurd hc (by decide)
      rw [nlAux_cons3, if_neg hA, if_pos ⟨rfl, rfl⟩]
  · cases s with
    | nil => rfl
    | cons c3 r =>
      show nlAux ('\n' :: '\r' :: c3 :: r) = '\n' :: nlAux (c3 :: r)
      have hA : ¬('\n' = '\r' ∧ '\r' = '\r' ∧ c3 = '\n') := by
        rintro ⟨hc, -⟩; exact absurd hc (by decide)
      have hB : ¬('\n' = '\r' ∧ '\r' = '\n') := by
        rintro ⟨hc, -⟩; exact absurd hc (by decide)
      rw [nlAux_cons3, if_neg hA, if_neg hB, if_pos ⟨rfl, rfl⟩]

/-- Counterexample to claim C5 as stated: `normalize_linefeeds` is not
idempotent.  On CR LF CR the single left-to-right pass rewrites the leading
CR LF and leaves a trailing LF CR, which a second pass rewrites again. -/
theorem normalize_linefeeds_not_idempotent_cex :
    normalize_linefeeds "\r\n\r" = "\n\r" ∧
    normalize_linefeeds (normalize_linefeeds "\r\n\r") = "\n" ∧
    normalize_linefeeds (normalize_linefeeds "\r\n\r") ≠ normalize_linefeeds "\r\n\r" := by
  refine ⟨rfl, rfl, by decide⟩

/-- Claim C5, amended: each occurrence of the three recognized variants that
is preceded by text free of CR and LF is mapped to a single linefeed; the
function is the identity on carriage-return-free (already normalized) text
and hence idempotent there; it is not idempotent on every input (see the
counterexample: a CR immediately after a replaced CR LF forms a new LF CR). -/
theorem normalize_linefeeds_amended :
    (∀ p v s : List Char,
      (v = ['\r', '\r', '\n'] ∨ v = ['\r', '\n'] ∨ v = ['\n', '\r']) →
      (∀ c ∈ p, c ≠ '\r' ∧ c ≠ '\n') →
      nlAux (p ++ v ++ s) = p ++ '\n' :: nlAux s) ∧
    (∀ s : String, '\r' ∉ s.data → normalize_linefeeds s = s) ∧
    (∀ s : String, '\r' ∉ s.data →
      normalize_linefeeds (normalize_linefeeds s) = normalize_linefeeds s) := by
  have hocc : ∀ p v s : List Char,
      (v = ['\r', '\r', '\n'] ∨ v = ['\r', '\n'] ∨ v = ['\n', '\r']) →
      (∀ c ∈ p, c ≠ '\r' ∧ c ≠ '\n') →
      nlAux (p ++ v ++ s) = p ++ '\n' :: nlAux s := by
    intro p v s hv hp
    induction p with
    | nil => simpa using nlAux_variant_head v s hv
    | cons c p' ih =>
      have hc := hp c (List.mem_cons_self c p')
      have hp' : ∀ c' ∈ p', c' ≠ '\r' ∧ c' ≠ '\n' :=
        fun c' hc' => hp c' (List.mem_cons_of_mem c hc')
      show nlAux (c :: (p' ++ v ++ s)) = c :: (p' ++ '\n' :: nlAux s)
      rw [nlAux_cons_safe c _ hc.1 hc.2, ih hp']
  have hid : ∀ s : String, '\r' ∉ s.data → normalize_linefeeds s = s := by
    intro s h
    cases s with
    | mk data =>
      show (⟨nlAux data⟩ : String) = ⟨data⟩
      rw [nlAux_id_of_no_cr data h]
  refine ⟨hocc, hid, ?_⟩
  intro s h
  rw [hid s h, hid s h]

/-- Witness for `normalize_linefeeds_amended` at concrete inputs. -/
theorem normalize_linefeeds_amended_witness :
    nlAux (['x'] ++ ['\r', '\n'] ++ ['y']) = ['x'] ++ '\n' :: nlAux ['y'] ∧
    normalize_linefeeds "ab\n" = "ab\n" ∧
    normalize_linefeeds (normalize_linefeeds "ab\n") = normalize_linefeeds "ab\n" :=
  ⟨normalize_linefeeds_amended.1 ['x'] ['\r', '\n'] ['y'] (Or.inr (Or.inl rfl))
      (by decide),
   normalize_linefeeds_amended.2.1 "ab\n" (by decide),
   normalize_linefeeds_amended.2.2 "ab\n" (by decide)⟩

/-! ### Claim C1: session preparation with no pagination command -/

/-- Claim C1 (the code side): with no pagination-disable command configured,
`_session_preparation` passes `None` to `send_commands`, which — after the
patterns guard admits the default — tries to iterate `None` and raises a
`TypeError` before any transport write or read (the trace is empty).  The
stage therefore does not contribute an empty string to `connect`; it makes
`connect` fail instead. -/
theorem session_preparation_none_raises
    (search : String → String → Nat → Bool) (p : String) (chunks : List String) :
    session_preparation search p none chunks =
      Outcome.err "TypeError: NoneType object is not iterable" [] := rfl

/-! ### Claim C2: patterns-argument type guard -/

/-- Counterexample to claim C2 as stated: `0`/`False` (any falsy value that
is neither a string nor a list, modelled by `PyPatterns.other false`) does
not make the call fail — the falsy test runs first, the value is treated as
an absent argument, and the command is sent and read normally. -/
theorem send_commands_falsy_other_cex :
    send_commands litSearch "P>" (PyCmds.str "a") true true (PyPatterns.other false) 0
        ["a\nhello\nP>"] =
      Outcome.ok ("\nhello", []) [Ev.write "a\n", Ev.read "a\nhello\nP>"] := by decide

/-- The loop result never lifts to an exception. -/
lemma ofRun_ne_err (r : RunRes) (m : String) (evs : List Ev) :
    ofRun r ≠ Outcome.err m evs := by
  intro h
  cases r <;> cases h

/-- The helper `pattern_list` answers `ok` on every string argument. -/
lemma pattern_list_str_ok (prompt s : String) :
    ∃ pl, pattern_list prompt (PyPatterns.str s) = Except.ok pl := by
  by_cases h : pyFalsy (PyPatterns.str s) = true
  · exact ⟨[prompt], by rw [pattern_list, if_pos h]⟩
  · exact ⟨[s, prompt], by rw [pattern_list, if_neg h]⟩

/-- The helper `pattern_list` answers `ok` on every list argument. -/
lemma pattern_list_list_ok (prompt : String) (l : List String) :
    ∃ pl, pattern_list prompt (PyPatterns.list l) = Except.ok pl := by
  by_cases h : pyFalsy (PyPatterns.list l) = true
  · exact ⟨[prompt], by rw [pattern_list, if_pos h]⟩
  · exact ⟨l ++ [prompt], by rw [pattern_list, if_neg h]⟩

/-- With an admitted patterns argument, `send_commands` never raises the
patterns `ValueError` (it either runs the loop or raises the `TypeError`
for a `None` command list, whose message differs). -/
lemma send_commands_ok_pats_ne_value_error
    (search : String → String → Nat → Bool) (prompt : String) (cmds : PyCmds)
    (sc sp : Bool) (patterns : PyPatterns) (flags : Nat) (chunks : List String)
    (pl : List String) (hpl : pattern_list prompt patterns = Except.ok pl) :
    send_commands search prompt cmds sc sp patterns flags chunks ≠
      Outcome.err "Patterns can be set only to str or List[str]" [] := by
  intro h
  rw [send_commands, hpl] at h
  cases cmds with
  | str s => exact ofRun_ne_err _ _ _ h
  | list l => exact ofRun_ne_err _ _ _ h
  | pynone =>
    injection h with h1 h2
    exact absurd h1 (by decide)

/-- Claim C2, amended: `send_commands` raises the invalid-argument
`ValueError` (before any transport event) exactly when the `patterns`
argument is a *truthy* value that is neither a string nor a list; a falsy
value of any other type is treated as an absent argument. -/
theorem send_commands_value_error_iff
    (search : String → String → Nat → Bool) (prompt : String) (cmds : PyCmds)
    (sc sp : Bool) (patterns : PyPatterns) (flags : Nat) (chunks : List String) :
    send_commands search prompt cmds sc sp patterns flags chunks =
        Outcome.err "Patterns can be set only to str or List[str]" [] ↔
      patterns = PyPatterns.other true := by
  constructor
  · intro h
    cases patterns with
    | pynone =>
      exact absurd h
        (send_commands_ok_pats_ne_value_error search prompt cmds sc sp _ flags chunks
          [prompt] rfl)
    | str s =>
      obtain ⟨pl, hpl⟩ := pattern_list_str_ok prompt s
      exact absurd h
        (send_commands_ok_pats_ne_value_error search prompt cmds sc sp _ flags chunks pl hpl)
    | list l =>
      obtain ⟨pl, hpl⟩ := pattern_list_list_ok prompt l
      exact absurd h
        (send_commands_ok_pats_ne_value_error search prompt cmds sc sp _ flags chunks pl hpl)
    | other t =>
      cases t with
      | false =>
        exact absurd h
          (send_commands_ok_pats_ne_value_error search prompt cmds sc sp _ flags chunks
            [prompt] rfl)
      | true => rfl
  · rintro rfl
    rfl

/-! ### Claim C3: the effective terminator-pattern list -/

/-- Counterexample to claim C3 as stated: the empty string is a string, but
because the falsy test runs first it yields `[currentPattern]`, not
`["", currentPattern]`. -/
theorem pattern_list_empty_string_cex :
    pattern_list "P>" (PyPatterns.str "") = Except.ok ["P>"] ∧
    pattern_list "P>" (PyPatterns.str "") ≠ Except.ok ["", "P>"] := by
  refine ⟨rfl, fun h => ?_⟩
  have h' : (Except.ok ["P>"] : Except String (List String)) = Except.ok ["", "P>"] := h
  injection h' with h1
  exact absurd h1 (by decide)

/-- Claim C3, amended: `None` yields exactly `[currentPattern]`; a *non-empty*
string `s` yields `[s, currentPattern]`, while the empty string is treated as
absent; a list `l` (empty or not) yields `l ++ [currentPattern]` — the
current pattern always appended last. -/
theorem pattern_list_amended (prompt : String) :
    pattern_list prompt PyPatterns.pynone = Except.ok [prompt] ∧
    (∀ s : String, s ≠ "" → pattern_list prompt (PyPatterns.str s) = Except.ok [s, prompt]) ∧
    pattern_list prompt (PyPatterns.str "") = Except.ok [prompt] ∧
    (∀ l : List String, pattern_list prompt (PyPatterns.list l) = Except.ok (l ++ [prompt])) := by
  refine ⟨rfl, ?_, rfl, ?_⟩
  · intro s hs
    have hfalsy : pyFalsy (PyPatterns.str s) = false := by
      simp only [pyFalsy, beq_eq_false_iff_ne, ne_eq]
      exact hs
    rw [pattern_list, hfalsy]
    rfl
  · intro l
    match l with
    | [] => rfl
    | x :: xs => rfl

/-- Witness for `pattern_list_amended` at a concrete non-empty string. -/
theorem pattern_list_amended_witness :
    (("X" : String) ≠ "") ∧
    pattern_list "P>" (PyPatterns.str "X") = Except.ok ["X", "P>"] :=
  ⟨by decide, (pattern_list_amended "P>").2.1 "X" (by decide)⟩

/-- Every event emitted by `_read_until` is a transport read. -/
lemma read_until_reads (search : String → String → Nat → Bool) (pats : List String)
    (flags : Nat) :
    ∀ (chunks : List String) (acc : String),
      ∃ rs : List String, (read_until search pats flags acc chunks).1 = rs.map Ev.read := by
  intro chunks
  induction chunks with
  | nil => exact fun acc => ⟨[], rfl⟩
  | cons ch rest ih =>
    intro acc
    rw [read_until]
    by_cases hm : pats.any (fun p => search p (acc ++ ch) flags) = true
    · rw [if_pos hm]
      exact ⟨[ch], rfl⟩
    · rw [if_neg hm]
      obtain ⟨rs, hrs⟩ := ih (acc ++ ch)
      exact ⟨ch :: rs, by simp only [List.map_cons, hrs]⟩

lemma setPats_append (a b : List Ev) : setPats (a ++ b) = setPats a ++ setPats b := by
  simp [setPats, List.filterMap_append]

lemma setPats_reads (rs : List String) : setPats (rs.map Ev.read) = [] := by
  induction rs with
  | nil => rfl
  | cons r rest ih => simp [setPats]

/-- Unfolding: one command whose read never matches. -/
lemma run_cmds_cons_none (search : String → String → Nat → Bool) (pats : List String)
    (flags : Nat) (sc sp : Bool) (cmd : String) (cs chunks : List String)
    (h : (read_until search pats flags "" chunks).2 = none) :
    run_cmds search pats flags sc sp (cmd :: cs) chunks =
      RunRes.hang (Ev.write (normalize_cmd cmd) :: (read_until search pats flags "" chunks).1) := by
  rw [run_cmds, h]

/-- Unfolding: one command whose read matches, followed by the rest of the
loop. -/
lemma run_cmds_cons_some (search : String → String → Nat → Bool) (pats : List String)
    (flags : Nat) (sc sp : Bool) (cmd : String) (cs chunks : List String)
    (buf : String) (chunks' : List String)
    (h : (read_until search pats flags "" chunks).2 = some (buf, chunks')) :
    run_cmds search pats flags sc sp (cmd :: cs) chunks =
      (match run_cmds search pats flags sc sp cs chunks' with
       | RunRes.ok out rest' evs =>
         RunRes.ok ((if sp then strip_prompt (if sc then strip_command cmd buf else buf)
             else if sc then strip_command cmd buf else buf) ++ out) rest'
           (Ev.write (normalize_cmd cmd) :: (read_until search pats flags "" chunks).1 ++ evs)
       | RunRes.hang evs =>
         RunRes.hang (Ev.write (normalize_cmd cmd) ::
           (read_until search pats flags "" chunks).1 ++ evs)) := by
  rw [run_cmds, h]

/-- The command loop performs no pattern assignment. -/
lemma run_cmds_no_setPats (search : String → String → Nat → Bool) (pats : List String)
    (flags : Nat) (sc sp : Bool) :
    ∀ (l chunks : List String),
      setPats (evsOfRun (run_cmds search pats flags sc sp l chunks)) = [] := by
  intro l
  induction l with
  | nil => intro chunks; rfl
  | cons cmd cs ih =>
    intro chunks
    obtain ⟨rs, hrs⟩ := read_until_reads search pats flags chunks ""
    cases hro : (read_until search pats flags "" chunks).2 with
    | none =>
      rw [run_cmds_cons_none search pats flags sc sp cmd cs chunks hro]
      show setPats ([Ev.write (normalize_cmd cmd)] ++ (read_until search pats flags "" chunks).1) = []
      rw [setPats_append, hrs, setPats_reads]
      rfl
    | some br =>
      rcases br with ⟨buf, chunks'⟩
      rw [run_cmds_cons_some search pats flags sc sp cmd cs chunks buf chunks' hro]
      rcases hrc : run_cmds search pats flags sc sp cs chunks' with ⟨out2, rest2, evs2⟩ | evs2
      · have h2 := ih chunks'
        rw [hrc] at h2
        have h2' : setPats evs2 = [] := h2
        show setPats ([Ev.write (normalize_cmd cmd)] ++
          ((read_until search pats flags "" chunks).1 ++ evs2)) = []
        rw [setPats_append, setPats_append, hrs, setPats_reads, h2']
        rfl
      · have h2 := ih chunks'
        rw [hrc] at h2
        have h2' : setPats evs2 = [] := h2
        show setPats ([Ev.write (normalize_cmd cmd)] ++
          ((read_until search pats flags "" chunks).1 ++ evs2)) = []
        rw [setPats_append, setPats_append, hrs, setPats_reads, h2']
        rfl

lemma evsOf_ofRun (r : RunRes) : evsOf (ofRun r) = evsOfRun r := by
  cases r <;> rfl

/-- The method `send_commands` performs no pattern assignment. -/
lemma send_commands_no_setPats (search : String → String → Nat → Bool) (prompt : String)
    (cmds : PyCmds) (sc sp : Bool) (patterns : PyPatterns) (flags : Nat)
    (chunks : List String) :
    setPats (evsOf (send_commands search prompt cmds sc sp patterns flags chunks)) = [] := by
  rw [send_commands]
  cases hpl : pattern_list prompt patterns with
  | error m => rfl
  | ok pats =>
    cases cmds with
    | str s =>
      show setPats (evsOf (ofRun (run_cmds search pats flags sc sp [s] chunks))) = []
      rw [evsOf_ofRun]
      exact run_cmds_no_setPats search pats flags sc sp [s] chunks
    | list l =>
      show setPats (evsOf (ofRun (run_cmds search pats flags sc sp l chunks))) = []
      rw [evsOf_ofRun]
      exact run_cmds_no_setPats search pats flags sc sp l chunks
    | pynone => rfl

/-! ### Characterization of a successful `_find_prompt` -/

/-- Forward characterization of a successful prompt detection: the probe is
the bare newline, the buffer returned by the reader is handed to the
prompt setter unsanitized (both strip flags are off), its result becomes the
new pattern, and the trace records exactly the two pattern assignments
around the probe's write and reads. -/
lemma find_prompt_ok_elim (search : String → String → Nat → Bool)
    (spf : String → String) (p : String) (chunks : List String)
    (raw p2 : String) (rest : List String) (evs : List Ev)
    (h : find_prompt search spf p chunks = Outcome.ok (raw, p2, rest) evs) :
    ∃ (buf : String) (rest0 : List String),
      (read_until search [anchored p] reMultilineDotall "" chunks).2 = some (buf, rest0) ∧
      raw = buf ∧ p2 = spf raw ∧ rest = rest0 ∧
      evs = Ev.setPattern (anchored p) :: Ev.write "\n" ::
        (read_until search [anchored p] reMultilineDotall "" chunks).1 ++
        [Ev.setPattern (spf raw)] := by
  rw [find_prompt] at h
  cases hro : (read_until search [anchored p] reMultilineDotall "" chunks).2 with
  | none =>
    have hrun := run_cmds_cons_none search [anchored p] reMultilineDotall false false
      "\n" [] chunks hro
    have hsc : send_commands search (anchored p) (PyCmds.str "\n") false false
        PyPatterns.pynone reMultilineDotall chunks =
        Outcome.hang (Ev.write (normalize_cmd "\n") ::
          (read_until search [anchored p] reMultilineDotall "" chunks).1) := by
      show ofRun (run_cmds search [anchored p] reMultilineDotall false false ["\n"] chunks) = _
      rw [hrun]
      rfl
    rw [hsc] at h
    exact Outcome.noConfusion h
  | some br =>
    rcases br with ⟨buf, chunks'⟩
    have hrun : run_cmds search [anchored p] reMultilineDotall false false ["\n"] chunks =
        RunRes.ok (buf ++ "") chunks'
          (Ev.write (normalize_cmd "\n") ::
            (read_until search [anchored p] reMultilineDotall "" chunks).1 ++ []) := by
      rw [run_cmds_cons_some search [anchored p] reMultilineDotall false false
        "\n" [] chunks buf chunks' hro]
      rfl
    have hsc : send_commands search (anchored p) (PyCmds.str "\n") false false
        PyPatterns.pynone reMultilineDotall chunks =
        Outcome.ok (buf ++ "", chunks')
          (Ev.write (normalize_cmd "\n") ::
            (read_until search [anchored p] reMultilineDotall "" chunks).1 ++ []) := by
      show ofRun (run_cmds search [anchored p] reMultilineDotall false false ["\n"] chunks) = _
      rw [hrun]
      rfl
    rw [hsc] at h
    have h' : Outcome.ok (buf ++ "", spf (buf ++ ""), chunks')
        (Ev.setPattern (anchored p) ::
          (Ev.write (normalize_cmd "\n") ::
            (read_until search [anchored p] reMultilineDotall "" chunks).1 ++ []) ++
          [Ev.setPattern (spf (buf ++ ""))]) = Outcome.ok (raw, p2, rest) evs := h
    injection h' with ha hevs
    have hraw : buf ++ "" = raw := congrArg Prod.fst ha
    have hp2c : spf (buf ++ "") = p2 := congrArg (fun q => q.2.1) ha
    have hrest : chunks' = rest := congrArg (fun q => q.2.2) ha
    have hbuf : raw = buf := hraw.symm.trans (String.append_empty buf)
    refine ⟨buf, chunks', rfl, hbuf, ?_, hrest.symm, ?_⟩
    · rw [← hraw]
      exact hp2c.symm
    · rw [← hevs, ← hraw]
      simp [show normalize_cmd "\n" = ("\n" : String) from rfl]

/-! ### Claim C6: the prompt-pattern invariant -/

/-- Counterexample to claim C6 as stated: construction with the empty
delimiter list is not rejected and yields the *empty* pattern, and during
prompt detection the pattern is assigned twice (first the anchored variant,
which differs from the bootstrap pattern, then the learned pattern), not
exactly once. -/
theorem init_empty_delims_cex :
    (mkInit [] none []).promptPattern = "" ∧
    setPats (evsOf (find_prompt (fun _ _ _ => true) (fun _ => "L2") "#" ["x#\nx#"])) =
      [anchored "#", "L2"] ∧
    anchored "#" ≠ "#" ∧ ("L2" : String) ≠ "#" := by
  refine ⟨rfl, rfl, by decide, by decide⟩

/-- Claim C6, amended: the source has no guard on the delimiter list (an
empty list yields the empty bootstrap pattern, see the counterexample), but
for a non-empty list of non-empty literals the bootstrap pattern is
non-empty; during a successful prompt detection the pattern is assigned
exactly twice — the anchored two-line variant of the bootstrap pattern,
then the prompt-setter's result — and `send_commands` never reassigns it,
so the learned pattern is immutable for the session's remaining lifetime. -/
theorem prompt_pattern_amended :
    (∀ (delims : List String) (nopage : Option String) (chunks : List String),
      delims ≠ [] → (∀ d ∈ delims, d ≠ "") →
      (mkInit delims nopage chunks).promptPattern ≠ "") ∧
    (∀ (search : String → String → Nat → Bool) (spf : String → String)
        (p : String) (chunks : List String) (raw p2 : String) (rest : List String)
        (evs : List Ev),
      find_prompt search spf p chunks = Outcome.ok (raw, p2, rest) evs →
      setPats evs = [anchored p, spf raw] ∧ p2 = spf raw) ∧
    (∀ (search : String → String → Nat → Bool) (prompt : String) (cmds : PyCmds)
        (sc sp : Bool) (patterns : PyPatterns) (flags : Nat) (chunks : List String),
      setPats (evsOf (send_commands search prompt cmds sc sp patterns flags chunks)) = []) := by
  refine ⟨?_, ?_, send_commands_no_setPats⟩
  · rintro delims nopage chunks hne hall h
    have hdata : (bootstrap_pattern delims).data = [] := by
      have := congrArg String.data h
      simpa [mkInit] using this
    match delims, hne with
    | d :: ds, _ =>
      have hd : d ≠ "" := hall d (List.mem_cons_self d ds)
      have hdne : d.data ≠ [] := fun hnil => hd (String.ext hnil)
      have hesc : escapeList d.data ≠ [] := by
        match d.data, hdne with
        | c :: cs, _ =>
          rw [escapeList]
          split <;> exact List.cons_ne_nil _ _
      rw [bootstrap_pattern] at hdata
      simp only [List.map_cons] at hdata
      match ds with
      | [] => exact hesc hdata
      | d2 :: ds' =>
        have hdata' : escapeList d.data ++ '|' ::
            joinBar (escapeList d2.data :: List.map (fun d => escapeList d.data) ds') = [] :=
          hdata
        simp at hdata'
  · intro search spf p chunks raw p2 rest evs h
    obtain ⟨buf, rest0, hro, hraw, hp2, hrest, hevs⟩ :=
      find_prompt_ok_elim search spf p chunks raw p2 rest evs h
    refine ⟨?_, hp2⟩
    obtain ⟨rs, hrs⟩ := read_until_reads search [anchored p] reMultilineDotall chunks ""
    rw [hevs]
    show setPats ([Ev.setPattern (anchored p), Ev.write "\n"] ++
      ((read_until search [anchored p] reMultilineDotall "" chunks).1 ++
        [Ev.setPattern (spf raw)])) = _
    rw [setPats_append, setPats_append, hrs, setPats_reads]
    rfl

/-- Witness for `prompt_pattern_amended` at concrete inputs. -/
theorem prompt_pattern_amended_witness :
    (mkInit ["#"] none []).promptPattern ≠ "" ∧
    (setPats (evsOf (find_prompt (fun _ _ _ => true) (fun _ => "LEARNED") ">" ["r>\nr>"])) =
        [anchored ">", "LEARNED"] ∧
      True) ∧
    setPats (evsOf (send_commands litSearch "P>" (PyCmds.str "c") true true
      PyPatterns.pynone 0 ["c\nP>"])) = [] := by
  refine ⟨prompt_pattern_amended.1 ["#"] none [] (by decide) ?_, ⟨?_, trivial⟩, ?_⟩
  · intro d hd
    simp only [List.mem_singleton] at hd
    subst hd
    decide
  · exact (prompt_pattern_amended.2.1 (fun _ _ _ => true) (fun _ => "LEARNED") ">"
      ["r>\nr>"] "r>\nr>" "LEARNED" [] _ (by decide)).1
  · exact prompt_pattern_amended.2.2 litSearch "P>" (PyCmds.str "c") true true
      PyPatterns.pynone 0 ["c\nP>"]

/-! ### Claim C8: the raw exchange feeds the prompt setter -/

/-- Claim C8: on a successful `connect`-time prompt detection, the probe is
a bare newline sent with both strip flags disabled; the buffer the reader
returns is passed to the prompt setter with no sanitization applied, and
the setter's return value becomes the session's current matching pattern
(the state `connect` carries into session preparation and returns). -/
theorem find_prompt_raw_to_setter
    (search : String → String → Nat → Bool) (spf : String → String)
    (st : DSState) (out : String) (st' : DSState) (evs : List Ev)
    (h : connect search spf st = Outcome.ok (out, st') evs) :
    ∃ (raw : String) (rest : List String),
      (read_until search [anchored st.promptPattern] reMultilineDotall "" st.chunks).2 =
        some (raw, rest) ∧
      st'.promptPattern = spf raw ∧
      (∃ evsf evsp buf2,
        find_prompt search spf st.promptPattern st.chunks =
          Outcome.ok (raw, spf raw, rest) evsf ∧
        evsf = Ev.setPattern (anchored st.promptPattern) :: Ev.write "\n" ::
          (read_until search [anchored st.promptPattern] reMultilineDotall "" st.chunks).1 ++
          [Ev.setPattern (spf raw)] ∧
        session_preparation search (spf raw) st.nopageCmd rest =
          Outcome.ok (buf2, st'.chunks) evsp ∧
        out = raw ++ buf2 ∧ evs = evsf ++ evsp) := by
  rw [connect] at h
  rcases hf : find_prompt search spf st.promptPattern st.chunks with
      ⟨⟨raw, p2, rest⟩, evsf⟩ | ⟨m, evsf⟩ | evsf <;> rw [hf] at h
  · obtain ⟨buf, rest0, hro, hraw, hp2, hrest, hevs⟩ :=
      find_prompt_ok_elim search spf st.promptPattern st.chunks raw p2 rest evsf hf
    have h2 : (match session_preparation search p2 st.nopageCmd rest with
        | Outcome.ok (buf, rest2) evs2 =>
          Outcome.ok (raw ++ buf, (⟨p2, st.nopageCmd, rest2⟩ : DSState)) (evsf ++ evs2)
        | Outcome.err m evs2 => Outcome.err m (evsf ++ evs2)
        | Outcome.hang evs2 => Outcome.hang (evsf ++ evs2)) = Outcome.ok (out, st') evs := h
    rcases hs : session_preparation search p2 st.nopageCmd rest with
        ⟨⟨buf2, rest2⟩, evsp⟩ | ⟨m, evsp⟩ | evsp <;> rw [hs] at h2
    · cases h2
      refine ⟨buf, rest0, hro, ?_, evsf, evsp, buf2, ?_, ?_, ?_, ?_, rfl⟩
      · show p2 = spf buf
        rw [hp2, hraw]
      · rw [hp2, hrest, hraw]
      · rw [hevs, hraw]
      · rw [← hraw, ← hp2, ← hrest]
        exact hs
      · show raw ++ buf2 = buf ++ buf2
        rw [hraw]
    · exact Outcome.noConfusion h2
    · exact Outcome.noConfusion h2
  · exact Outcome.noConfusion h
  · exact Outcome.noConfusion h

/-- Witness for `find_prompt_raw_to_setter` on a concrete run. -/
theorem find_prompt_raw_to_setter_witness :
    (connect (fun _ s _ => s.data.length != 0) (fun _ => "h#")
        ⟨"#", some "nopage", ["h#\nh#", "ok\nh#"]⟩ =
      Outcome.ok ("h#\nh#", ⟨"h#", some "nopage", []⟩)
        [Ev.setPattern (anchored "#"), Ev.write "\n", Ev.read "h#\nh#",
         Ev.setPattern "h#", Ev.write "nopage\n", Ev.read "ok\nh#"]) ∧
    (∃ (raw : String) (rest : List String),
      (read_until (fun _ s _ => s.data.length != 0) [anchored "#"] reMultilineDotall ""
          ["h#\nh#", "ok\nh#"]).2 = some (raw, rest) ∧
      (⟨"h#", some "nopage", []⟩ : DSState).promptPattern = (fun _ => "h#") raw ∧
      (∃ evsf evsp buf2,
        find_prompt (fun _ s _ => s.data.length != 0) (fun _ => "h#") "#" ["h#\nh#", "ok\nh#"] =
          Outcome.ok (raw, (fun _ => "h#") raw, rest) evsf ∧
        evsf = Ev.setPattern (anchored "#") :: Ev.write "\n" ::
          (read_until (fun _ s _ => s.data.length != 0) [anchored "#"] reMultilineDotall ""
            ["h#\nh#", "ok\nh#"]).1 ++ [Ev.setPattern ((fun _ => "h#") raw)] ∧
        session_preparation (fun _ s _ => s.data.length != 0) "h#" (some "nopage") rest =
          Outcome.ok (buf2, (⟨"h#", some "nopage", []⟩ : DSState).chunks) evsp ∧
        ("h#\nh#" : String) = raw ++ buf2 ∧
        ([Ev.setPattern (anchored "#"), Ev.write "\n", Ev.read "h#\nh#",
          Ev.setPattern "h#", Ev.write "nopage\n", Ev.read "ok\nh#"] : List Ev) = evsf ++ evsp)) :=
  ⟨by decide,
   find_prompt_raw_to_setter (fun _ s _ => s.data.length != 0) (fun _ => "h#")
     ⟨"#", some "nopage", ["h#\nh#", "ok\nh#"]⟩ "h#\nh#" ⟨"h#", some "nopage", []⟩ _ (by decide)⟩

/-- A completed loop's trace is the in-order concatenation of one block per
command. -/
lemma run_cmds_blocks (search : String → String → Nat → Bool) (pats : List String)
    (flags : Nat) (sc sp : Bool) :
    ∀ (l chunks : List String) (out : String) (rest : List String) (evs : List Ev),
      run_cmds search pats flags sc sp l chunks = RunRes.ok out rest evs →
      ∃ blocks : List (List Ev),
        evs = blocks.flatten ∧ List.Forall₂ cmdBlock l blocks := by
  intro l
  induction l with
  | nil =>
    intro chunks out rest evs h
    have h' : RunRes.ok "" chunks [] = RunRes.ok out rest evs := h
    injection h' with h1 h2 h3
    exact ⟨[], h3.symm, List.Forall₂.nil⟩
  | cons cmd cs ih =>
    intro chunks out rest evs h
    cases hro : (read_until search pats flags "" chunks).2 with
    | none =>
      rw [run_cmds_cons_none search pats flags sc sp cmd cs chunks hro] at h
      exact RunRes.noConfusion h
    | some br =>
      rcases br with ⟨buf, chunks'⟩
      rw [run_cmds_cons_some search pats flags sc sp cmd cs chunks buf chunks' hro] at h
      rcases hrc : run_cmds search pats flags sc sp cs chunks' with ⟨out2, rest2, evs2⟩ | evs2 <;>
        rw [hrc] at h
      · have h' : RunRes.ok
            ((if sp then strip_prompt (if sc then strip_command cmd buf else buf)
              else if sc then strip_command cmd buf else buf) ++ out2) rest2
            (Ev.write (normalize_cmd cmd) ::
              (read_until search pats flags "" chunks).1 ++ evs2) =
            RunRes.ok out rest evs := h
        injection h' with h1 h2 h3
        obtain ⟨blocks, hfl, hall⟩ := ih chunks' out2 rest2 evs2 hrc
        obtain ⟨rs, hrs⟩ := read_until_reads search pats flags chunks ""
        refine ⟨(Ev.write (normalize_cmd cmd) ::
          (read_until search pats flags "" chunks).1) :: blocks, ?_, ?_⟩
        · rw [← h3, hfl]
          simp
        · exact List.Forall₂.cons ⟨rs, by rw [hrs]⟩ hall
      · exact RunRes.noConfusion h

/-- Claim C9: when a `send_commands` call over a list of commands completes,
its transport trace decomposes into one contiguous block per command, in
list order; each block is exactly one write of that command (normalized)
followed only by its reads, so all of command i's reads finish before
command i+1's write and no events of different commands interleave. -/
theorem send_commands_sequential_blocks
    (search : String → String → Nat → Bool) (prompt : String) (l : List String)
    (sc sp : Bool) (patterns : PyPatterns) (flags : Nat) (chunks : List String)
    (out : String) (rest : List String) (evs : List Ev)
    (h : send_commands search prompt (PyCmds.list l) sc sp patterns flags chunks =
      Outcome.ok (out, rest) evs) :
    ∃ blocks : List (List Ev), evs = blocks.flatten ∧ List.Forall₂ cmdBlock l blocks := by
  rw [send_commands] at h
  cases hpl : pattern_list prompt patterns with
  | error m =>
    rw [hpl] at h
    exact Outcome.noConfusion h
  | ok pats =>
    rw [hpl] at h
    have h2 : ofRun (run_cmds search pats flags sc sp l chunks) = Outcome.ok (out, rest) evs := h
    rcases hrc : run_cmds search pats flags sc sp l chunks with ⟨out2, rest2, evs2⟩ | evs2 <;>
      rw [hrc] at h2
    · have h3 : Outcome.ok (out2, rest2) evs2 = Outcome.ok (out, rest) evs := h2
      injection h3 with h4 h5
      rw [← h5]
      exact run_cmds_blocks search pats flags sc sp l chunks out2 rest2 evs2 hrc
    · exact Outcome.noConfusion h2

/-- Witness for `send_commands_sequential_blocks`: two commands against a
stub transport, two writes in order, one read each, no interleaving. -/
theorem send_commands_sequential_blocks_witness :
    (send_commands litSearch "P>" (PyCmds.list ["show ip", "show run"]) true true
        PyPatterns.pynone 0 ["show ip\nout1\nP>", "show run\nout2\nP>"] =
      Outcome.ok ("\nout1\nout2", [])
        [Ev.write "show ip\n", Ev.read "show ip\nout1\nP>",
         Ev.write "show run\n", Ev.read "show run\nout2\nP>"]) ∧
    (∃ blocks : List (List Ev),
      ([Ev.write "show ip\n", Ev.read "show ip\nout1\nP>",
        Ev.write "show run\n", Ev.read "show run\nout2\nP>"] : List Ev) = blocks.flatten ∧
      List.Forall₂ cmdBlock ["show ip", "show run"] blocks) :=
  ⟨by decide,
   send_commands_sequential_blocks litSearch "P>" ["show ip", "show run"] true true
     PyPatterns.pynone 0 ["show ip\nout1\nP>", "show run\nout2\nP>"] "\nout1\nout2" []
     [Ev.write "show ip\n", Ev.read "show ip\nout1\nP>",
      Ev.write "show run\n", Ev.read "show run\nout2\nP>"] (by decide)⟩

/-! ### Escaping correctness lemmas -/

lemma pySpecial_not_alphanum (c : Char) (h : pySpecial c = true) : c.isAlphanum = false := by
  simp only [pySpecial, Bool.or_eq_true, beq_iff_eq, or_assoc] at h
  rcases h with h|h|h|h|h|h|h|h|h|h|h|h|h|h|h|h|h|h|h|h|h|h|h|h <;> subst h <;> decide

lemma pySpecial_false_ne (c x : Char) (hx : pySpecial x = true) (h : pySpecial c = false) :
    c ≠ x := by
  intro he
  subst he
  rw [hx] at h
  cases h

lemma unsupportedChar_false (c : Char) (h : pySpecial c = false) : unsupportedChar c = false := by
  have h1 := pySpecial_false_ne c '(' (by decide) h
  have h2 := pySpecial_false_ne c ')' (by decide) h
  have h3 := pySpecial_false_ne c '[' (by decide) h
  have h4 := pySpecial_false_ne c ']' (by decide) h
  have h5 := pySpecial_false_ne c '\x7b' (by decide) h
  have h6 := pySpecial_false_ne c '\x7d' (by decide) h
  have h7 := pySpecial_false_ne c '^' (by decide) h
  have h8 := pySpecial_false_ne c '$' (by decide) h
  have h9 := pySpecial_false_ne c '|' (by decide) h
  simp only [unsupportedChar, Bool.or_eq_false_iff, beq_eq_false_iff_ne, ne_eq, and_assoc]
  exact ⟨h1, h2, h3, h4, h5, h6, h7, h8, h9⟩

/-- Definitional unfolding of the tokenizer on a cons cell. -/
lemma tokenizeBranch_cons (c : Char) (rest : List Char) :
    tokenizeBranch (c :: rest) =
      (if c = '\\' then
        match rest with
        | [] => none
        | c2 :: rest2 =>
          if c2.isAlphanum then none
          else (tokenizeBranch rest2).map (fun ts => Tok.atom (Rx.chr c2) :: ts)
      else if c = '*' then (tokenizeBranch rest).map (fun ts => Tok.star :: ts)
      else if c = '+' then (tokenizeBranch rest).map (fun ts => Tok.plus :: ts)
      else if c = '?' then (tokenizeBranch rest).map (fun ts => Tok.opt :: ts)
      else if c = '.' then (tokenizeBranch rest).map (fun ts => Tok.atom Rx.dot :: ts)
      else if unsupportedChar c then none
      else (tokenizeBranch rest).map (fun ts => Tok.atom (Rx.chr c) :: ts)) := by
  rw [tokenizeBranch.eq_def]

lemma tokenizeBranch_esc (c2 : Char) (rest2 : List Char) (h : c2.isAlphanum = false) :
    tokenizeBranch ('\\' :: c2 :: rest2) =
      (tokenizeBranch rest2).map (fun ts => Tok.atom (Rx.chr c2) :: ts) := by
  rw [tokenizeBranch_cons, if_pos rfl]
  show (if c2.isAlphanum then none
    else (tokenizeBranch rest2).map (fun ts => Tok.atom (Rx.chr c2) :: ts)) = _
  rw [if_neg (by simp [h])]

lemma tokenizeBranch_plain (c : Char) (rest : List Char) (h : pySpecial c = false) :
    tokenizeBranch (c :: rest) =
      (tokenizeBranch rest).map (fun ts => Tok.atom (Rx.chr c) :: ts) := by
  have h1 := pySpecial_false_ne c '\\' (by decide) h
  have h2 := pySpecial_false_ne c '*' (by decide) h
  have h3 := pySpecial_false_ne c '+' (by decide) h
  have h4 := pySpecial_false_ne c '?' (by decide) h
  have h5 := pySpecial_false_ne c '.' (by decide) h
  have h6 := unsupportedChar_false c h
  rw [tokenizeBranch_cons, if_neg h1, if_neg h2, if_neg h3, if_neg h4, if_neg h5,
    if_neg (by simp [h6])]

/-- Escaped literals tokenize to their atoms. -/
lemma tokenize_escape (d : List Char) :
    tokenizeBranch (escapeList d) = some (d.map (fun c => Tok.atom (Rx.chr c))) := by
  induction d with
  | nil => rfl
  | cons c d' ih =>
    by_cases hsp : pySpecial c = true
    · have he : escapeList (c :: d') = '\\' :: c :: escapeList d' := by
        rw [escapeList, if_pos hsp]
      rw [he, tokenizeBranch_esc c (escapeList d') (pySpecial_not_alphanum c hsp), ih]
      rfl
    · have hspF : pySpecial c = false := by
        revert hsp
        cases pySpecial c <;> simp
      have he : escapeList (c :: d') = c :: escapeList d' := by
        rw [escapeList, if_neg hsp]
      rw [he, tokenizeBranch_plain c (escapeList d') hspF, ih]
      rfl

/-- A pure sequence of atoms parses to the literal concatenation. -/
lemma parseToks_atoms (d : List Char) :
    parseToks (d.map (fun c => Tok.atom (Rx.chr c))) = some (litRx d) := by
  induction d with
  | nil => rfl
  | cons c d' ih =>
    cases d' with
    | nil => rfl
    | cons c2 d'' =>
      show (parseToks ((c2 :: d'').map (fun c => Tok.atom (Rx.chr c)))).map
        (fun r => Rx.cat (Rx.chr c) r) = some (litRx (c :: c2 :: d''))
      rw [ih]
      rfl

lemma parseBranch_escape (d : List Char) : parseBranch (escapeList d) = some (litRx d) := by
  rw [parseBranch, tokenize_escape d]
  exact parseToks_atoms d

/-- The literal regex matches exactly the literal. -/
lemma litRx_match (d m : List Char) : RxMatch (litRx d) m ↔ m = d := by
  induction d generalizing m with
  | nil =>
    constructor
    · intro h
      cases h
      rfl
    · rintro rfl
      exact RxMatch.eps
  | cons c d' ih =>
    constructor
    · intro h
      cases h with
      | cat h1 h2 =>
        cases h1
        rw [(ih _).mp h2]
        rfl
    · rintro rfl
      exact RxMatch.cat (RxMatch.chr c) ((ih d').mpr rfl)

lemma consPre_ne_nil (pre : List Char) (bs : List (List Char)) : consPre pre bs ≠ [] := by
  cases bs <;> simp [consPre]

/-- Definitional unfolding of the splitter on a cons cell. -/
lemma splitBranches_cons (c : Char) (rest : List Char) :
    splitBranches (c :: rest) =
      (if c = '\\' then
        match rest with
        | [] => [['\\']]
        | c2 :: rest2 => consPre ['\\', c2] (splitBranches rest2)
      else if c = '|' then [] :: splitBranches rest
      else consPre [c] (splitBranches rest)) := by
  rw [splitBranches.eq_def]

lemma splitBranches_ne_nil (l : List Char) : splitBranches l ≠ [] := by
  induction l with
  | nil => simp [splitBranches]
  | cons c rest ih =>
    rw [splitBranches_cons]
    by_cases h1 : c = '\\'
    · rw [if_pos h1]
      cases rest with
      | nil => simp
      | cons c2 rest2 => exact consPre_ne_nil _ _
    · rw [if_neg h1]
      by_cases h2 : c = '|'
      · rw [if_pos h2]
        simp
      · rw [if_neg h2]
        exact consPre_ne_nil _ _

lemma consPre_consPre (a b : List Char) (l : List (List Char)) :
    consPre a (consPre b l) = consPre (a ++ b) l := by
  cases l <;> simp [consPre]

/-- Splitting never cuts inside an escaped literal. -/
lemma splitBranches_escape_append (d rest : List Char) :
    splitBranches (escapeList d ++ rest) = consPre (escapeList d) (splitBranches rest) := by
  induction d with
  | nil =>
    show splitBranches rest = consPre [] (splitBranches rest)
    cases hsb : splitBranches rest with
    | nil => exact absurd hsb (splitBranches_ne_nil rest)
    | cons b bs => simp [consPre]
  | cons c d' ih =>
    by_cases hsp : pySpecial c = true
    · have he : escapeList (c :: d') = '\\' :: c :: escapeList d' := by
        rw [escapeList, if_pos hsp]
      rw [he]
      show splitBranches ('\\' :: c :: (escapeList d' ++ rest)) = _
      have hstep : splitBranches ('\\' :: c :: (escapeList d' ++ rest)) =
          consPre ['\\', c] (splitBranches (escapeList d' ++ rest)) := by
        rw [splitBranches_cons, if_pos rfl]
      rw [hstep, ih, consPre_consPre]
      rfl
    · have hspF : pySpecial c = false := by
        revert hsp
        cases pySpecial c <;> simp
      have he : escapeList (c :: d') = c :: escapeList d' := by
        rw [escapeList, if_neg hsp]
      rw [he]
      show splitBranches (c :: (escapeList d' ++ rest)) = _
      have hc1 := pySpecial_false_ne c '\\' (by decide) hspF
      have hc2 := pySpecial_false_ne c '|' (by decide) hspF
      have hstep : splitBranches (c :: (escapeList d' ++ rest)) =
          consPre [c] (splitBranches (escapeList d' ++ rest)) := by
        rw [splitBranches_cons, if_neg hc1, if_neg hc2]
      rw [hstep, ih, consPre_consPre]
      rfl

/-- The compiled pattern splits back into exactly the escaped delimiters. -/
lemma splitBranches_joinBar (ds : List (List Char)) (h : ds ≠ []) :
    splitBranches (joinBar (ds.map escapeList)) = ds.map escapeList := by
  induction ds with
  | nil => cases h rfl
  | cons d ds' ih =>
    cases ds' with
    | nil =>
      show splitBranches (escapeList d) = [escapeList d]
      have hstep := splitBranches_escape_append d []
      rw [List.append_nil] at hstep
      rw [hstep]
      simp [splitBranches, consPre]
    | cons d2 ds'' =>
      show splitBranches (escapeList d ++ '|' :: joinBar ((d2 :: ds'').map escapeList)) = _
      rw [splitBranches_escape_append]
      have hstep : splitBranches ('|' :: joinBar ((d2 :: ds'').map escapeList)) =
          [] :: splitBranches (joinBar ((d2 :: ds'').map escapeList)) := by
        rw [splitBranches_cons, if_neg (by decide), if_pos rfl]
      rw [hstep, ih (by simp)]
      simp [consPre]

lemma parseBranches_escape (ds : List (List Char)) :
    parseBranches (ds.map escapeList) = some (ds.map litRx) := by
  induction ds with
  | nil => rfl
  | cons d ds' ih =>
    show (match parseBranch (escapeList d), parseBranches (ds'.map escapeList) with
      | some r, some rs => some (r :: rs)
      | _, _ => none) = some (litRx d :: ds'.map litRx)
    rw [parseBranch_escape d, ih]

lemma altOf_some (rs : List Rx) (h : rs ≠ []) : ∃ a, altOf rs = some a := by
  induction rs with
  | nil => cases h rfl
  | cons r rs' ih =>
    cases rs' with
    | nil => exact ⟨r, rfl⟩
    | cons r2 rs'' =>
      obtain ⟨a, ha⟩ := ih (by simp)
      refine ⟨Rx.alt r a, ?_⟩
      show (altOf (r2 :: rs'')).map (fun x => Rx.alt r x) = some (Rx.alt r a)
      rw [ha]
      rfl

lemma altOf_match (rs : List Rx) (a : Rx) (ha : altOf rs = some a) (m : List Char) :
    RxMatch a m ↔ ∃ r ∈ rs, RxMatch r m := by
  induction rs generalizing a with
  | nil => cases ha
  | cons r rs' ih =>
    cases rs' with
    | nil =>
      have hra : r = a := by
        have ha' : some r = some a := ha
        injection ha'
      rw [← hra]
      constructor
      · intro h2
        exact ⟨r, List.mem_cons_self r [], h2⟩
      · rintro ⟨r', hr', hm⟩
        have hr2 : r' = r := List.mem_singleton.mp hr'
        subst hr2
        exact hm
    | cons r2 rs'' =>
      have ha' : (altOf (r2 :: rs'')).map (fun x => Rx.alt r x) = some a := ha
      cases hb : altOf (r2 :: rs'') with
      | none =>
        rw [hb] at ha'
        cases ha'
      | some b =>
        rw [hb] at ha'
        have hab : Rx.alt r b = a := by injection ha'
        subst hab
        constructor
        · intro h
          cases h with
          | altL h1 => exact ⟨r, List.mem_cons_self r _, h1⟩
          | altR h1 =>
            obtain ⟨r', hr', hm⟩ := (ih b hb).mp h1
            exact ⟨r', List.mem_cons_of_mem r hr', hm⟩
        · rintro ⟨r', hr', hm⟩
          rcases List.mem_cons.mp hr' with rfl | hr''
          · exact RxMatch.altL hm
          · exact RxMatch.altR ((ih b hb).mpr ⟨r', hr'', hm⟩)

/-- Claim C7: for every non-empty delimiter list, the compiled bootstrap
pattern parses (under general Python-regex syntax) to a regex that searches
as the pure alternation of the literal delimiters: it matches each delimiter
verbatim, and a text matches somewhere iff it contains some delimiter as a
substring — in particular, text containing metacharacters drawn from the
literals but no delimiter itself does not match. -/
theorem bootstrap_pattern_escaping_correct (delims : List String) (h : delims ≠ []) :
    ∃ r, parseRegex (bootstrap_pattern delims) = some r ∧
      (∀ d ∈ delims, rxSearch r d.data) ∧
      (∀ t : List Char, rxSearch r t ↔ ∃ d ∈ delims, d.data <:+: t) := by
  have hds : delims.map (fun d => d.data) ≠ [] := by
    simpa using h
  obtain ⟨a, ha⟩ := altOf_some ((delims.map (fun d => d.data)).map litRx) (by simpa using h)
  have hpr : parseRegex (bootstrap_pattern delims) = some a := by
    rw [parseRegex]
    have hdata : (bootstrap_pattern delims).data =
        joinBar ((delims.map (fun d => d.data)).map escapeList) := by
      rw [bootstrap_pattern]
      show joinBar (delims.map (fun d => escapeList d.data)) = _
      rw [List.map_map]
      rfl
    rw [hdata, splitBranches_joinBar _ hds, parseBranches_escape]
    exact ha
  have hiff : ∀ t : List Char, rxSearch a t ↔ ∃ d ∈ delims, d.data <:+: t := by
    intro t
    constructor
    · rintro ⟨m, hinf, hm⟩
      obtain ⟨r', hr', hm'⟩ := (altOf_match _ a ha m).mp hm
      obtain ⟨dd, hdd, rfl⟩ := List.mem_map.mp hr'
      obtain ⟨d, hd, rfl⟩ := List.mem_map.mp hdd
      rw [litRx_match] at hm'
      subst hm'
      exact ⟨d, hd, hinf⟩
    · rintro ⟨d, hd, hinf⟩
      refine ⟨d.data, hinf, (altOf_match _ a ha d.data).mpr
        ⟨litRx d.data, ?_, (litRx_match _ _).mpr rfl⟩⟩
      exact List.mem_map.mpr ⟨d.data, List.mem_map.mpr ⟨d, hd, rfl⟩, rfl⟩
  refine ⟨a, hpr, ?_, hiff⟩
  intro d hd
  exact (hiff d.data).mpr ⟨d, hd, List.infix_rfl⟩

/-- Witness for `bootstrap_pattern_escaping_correct` on a delimiter
containing a metacharacter. -/
theorem bootstrap_pattern_escaping_correct_witness :
    (["a.b"] ≠ ([] : List String)) ∧
    (∃ r, parseRegex (bootstrap_pattern ["a.b"]) = some r ∧
      (∀ d ∈ (["a.b"] : List String), rxSearch r d.data) ∧
      (∀ t : List Char, rxSearch r t ↔ ∃ d ∈ (["a.b"] : List String), d.data <:+: t)) :=
  ⟨by decide, bootstrap_pattern_escaping_correct ["a.b"] (by decide)⟩

end Netdev
